import Mathlib

/-!
Shallow embedding of the matrix-rain core engines:
`MatrixRainCore` (matrixRainCore.ts), `EffectRenderer` (effectRenderer.ts),
`InteractionHandler` (interactionHandler.ts), plus `CHARSETS` (config) and
`getRandomChar` (utils).  `Math.random()` is modelled as an explicit stream
of rationals (`Rng`), `Math.sin` at natural-number arguments as an injected
function `sinj`, and canvas draw calls as `DrawEvent` values.  Numeric state
is modelled with `ℚ`; the interaction handler, whose particle velocities use
real trigonometry, is modelled over `ℝ`.
-/

namespace MatrixRain

/-- Charset keys of `CHARSETS` (config.ts). -/
inductive CharsetKey
  | en
  | cn
  | bin
  | mix
deriving DecidableEq, Repr

/-- Theme keys of `THEMES` (config.ts). -/
inductive ThemeKey
  | green
  | blue
  | purple
  | red
  | orange
  | white
deriving DecidableEq, Repr

/-- The charset catalog (config.ts `CHARSETS`), as glyph lists.
Literal braces of the source strings are written with `\x7b`/`\x7d` escapes. -/
def CHARSETS : CharsetKey → List Char
  | .en => "ABCDEFGHIJKLMNOPQRSTUVWXYZ0123456789!@#$%^&*()_+-=[]\x7b\x7d|;:,.<>?/~`".toList
  | .cn => "アイウエオカキクケコサシスセソタチツテトナニヌネノハヒフヘホマミムメモヤユヨラリルレロワヲン漢字天地方圓虛空無限未來科技數碼量子".toList
  | .bin => "01".toList
  | .mix => "01アイウエオカキクケコサシスセソタチツテトナニヌネノハヒフヘホマミムメモヤユヨラリルレロワヲン漢字レ仮想現実サイバーコード@#$%^&*()[]\x7b\x7d".toList

/-- A `Math.random()` oracle: a stream `g` of draws and a cursor `k`. -/
structure Rng where
  g : ℕ → ℚ
  k : ℕ

/-- One `Math.random()` call: return the current draw, advance the cursor. -/
def Rng.next (r : Rng) : ℚ × Rng := (r.g r.k, ⟨r.g, r.k + 1⟩)

/-- The stream models `Math.random()`: every draw lies in `[0, 1)`. -/
def RngOk (g : ℕ → ℚ) : Prop := ∀ n, 0 ≤ g n ∧ g n < 1

/-- utils.ts `getRandomChar`: `charset[Math.floor(Math.random() * charset.length)]`.
The `' '` default is never reached for a draw in `[0, 1)`. -/
def getRandomChar (key : CharsetKey) (r : ℚ) : Char :=
  (CHARSETS key).getD (⌊r * ((CHARSETS key).length : ℚ)⌋).toNat ' '

/-- A `Drop` record (types/index.ts). `xIndex` is `none` when the source
would hold `undefined` (splice from an exhausted pool). -/
structure Drop where
  y : ℚ
  speed : ℚ
  trail : List Char
  trailLength : ℕ
  updateCounter : ℕ
  updateInterval : ℕ
  currentChar : Char
  xIndex : Option ℕ
deriving DecidableEq, Repr

/-- The `MatrixRainCore` private state with its field initializers. -/
structure MatrixRainCore where
  drops : List Drop := []
  fontSize : ℚ := 24
  density : ℚ := 100
  speed : ℚ := 100
  currentCharset : CharsetKey := .mix
  currentTheme : ThemeKey := .green

/-- `Math.ceil(canvasWidth / this.fontSize)` in `initDrops`. -/
def columnsFor (w fontSize : ℚ) : ℤ := ⌈w / fontSize⌉

/-- `Math.max(1, Math.floor(columns * (this.density / 100)))` in `initDrops`. -/
def actualColumnsFor (columns : ℤ) (density : ℚ) : ℤ :=
  max 1 ⌊(columns : ℚ) * (density / 100)⌋

/-- The `initDrops` selection loop: `n` times, draw
`randomIndex = Math.floor(Math.random() * allIndices.length)` and push
`allIndices.splice(randomIndex, 1)[0]` (which is `undefined`, i.e. `none`,
once the pool is exhausted). -/
def selectIndices : List ℕ → ℕ → Rng → List (Option ℕ) × Rng
  | _, 0, rng => ([], rng)
  | pool, n + 1, rng =>
    let (r, rng1) := rng.next
    let idx := (⌊r * (pool.length : ℚ)⌋).toNat
    let rest := selectIndices (pool.eraseIdx idx) n rng1
    (pool[idx]? :: rest.1, rest.2)

/-- One element of the `selectedIndices.map` in `initDrops`: draws, in source
order, the seed position, speed, update interval and leading glyph. -/
def buildDrop (cs : CharsetKey) (speedRatio w : ℚ) (idx : Option ℕ) (rng : Rng) :
    Drop × Rng :=
  let (r1, rng1) := rng.next
  let (r2, rng2) := rng1.next
  let (r3, rng3) := rng2.next
  let (r4, rng4) := rng3.next
  ({ y := r1 * w
     speed := (r2 * 2 + 3 / 2) * speedRatio
     trail := []
     trailLength := 8
     updateCounter := 0
     updateInterval := (⌊r3 * 4⌋).toNat + 3
     currentChar := getRandomChar cs r4
     xIndex := idx }, rng4)

/-- The `selectedIndices.map` of `initDrops`, with the random stream threaded
in iteration order. -/
def buildDrops (cs : CharsetKey) (speedRatio w : ℚ) :
    List (Option ℕ) → Rng → List Drop × Rng
  | [], rng => ([], rng)
  | idx :: rest, rng =>
    let resD := buildDrop cs speedRatio w idx rng
    let resL := buildDrops cs speedRatio w rest resD.2
    (resD.1 :: resL.1, resL.2)

/-- Draw `n` fresh random glyphs (used for the trail pre-fill loop and for the
charset-change trail regeneration). -/
def fillChars (cs : CharsetKey) : ℕ → Rng → List Char × Rng
  | 0, rng => ([], rng)
  | n + 1, rng =>
    let (r, rng1) := rng.next
    let res := fillChars cs n rng1
    (getRandomChar cs r :: res.1, res.2)

/-- The trail pre-fill loop of `initDrops`: for each drop, push `trailLength`
random glyphs onto its (empty) trail. -/
def prefillDrops (cs : CharsetKey) : List Drop → Rng → List Drop × Rng
  | [], rng => ([], rng)
  | d :: ds, rng =>
    let resT := fillChars cs d.trailLength rng
    let resL := prefillDrops cs ds resT.2
    ({ d with trail := d.trail ++ resT.1 } :: resL.1, resL.2)

/-- `MatrixRainCore.initDrops`. -/
def initDrops (core : MatrixRainCore) (w : ℚ) (rng : Rng) : MatrixRainCore × Rng :=
  let columns := columnsFor w core.fontSize
  let actual := actualColumnsFor columns core.density
  let resS := selectIndices (List.range columns.toNat) actual.toNat rng
  let resB := buildDrops core.currentCharset (core.speed / 100) w resS.1 resS.2
  let resP := prefillDrops core.currentCharset resB.1 resB.2
  ({ core with drops := resP.1 }, resP.2)

/-- One canvas draw call, as observed by the model. -/
inductive DrawEvent
  | rainGlyph (c : Char) (x : Option ℚ) (y : ℚ) (intensity : ℚ)
  | circle (x y radius alpha : ℚ)
  | glyph (c : Char) (x y alpha : ℚ)
  | textDraw (s : Option String) (x y alpha size : ℚ)
deriving DecidableEq, Repr

/-- The trail-drawing loop of `drawDrops`: entry `j` is drawn at
`y - (j+1) * fontSize` with intensity `1 - j / trailLength`, skipped when
`trailY + fontSize < 0`.  An `undefined` `xIndex` yields a `none` x. -/
def trailEvents (d : Drop) (fontSize : ℚ) : List DrawEvent :=
  (List.range d.trail.length).filterMap fun (j : ℕ) =>
    let trailY := d.y - ((j : ℚ) + 1) * fontSize
    if trailY + fontSize < 0 then none
    else some (.rainGlyph (d.trail.getD j ' ')
      (d.xIndex.map fun i => (i : ℚ) * fontSize) trailY (1 - (j : ℚ) / (d.trailLength : ℚ)))

/-- The per-drop body of `drawDrops`: draw the trail and the leading glyph,
then (only when animating) run the glyph-refresh step, advance `y` by the
speed, and respawn in place when `y` exceeds the canvas height. -/
def stepDrop (cs : CharsetKey) (fontSize speedCfg h : ℚ) (anim : Bool)
    (d : Drop) (rng : Rng) : Drop × List DrawEvent × Rng :=
  let evs := trailEvents d fontSize ++
    [.rainGlyph d.currentChar (d.xIndex.map fun i => (i : ℚ) * fontSize) d.y 1]
  if anim then
    let d1 := { d with updateCounter := d.updateCounter + 1 }
    let res2 :=
      if d1.updateCounter ≥ d1.updateInterval then
        let (r, rng1) := rng.next
        let t1 := d1.currentChar :: d1.trail
        let t2 := if t1.length > d1.trailLength then t1.dropLast else t1
        ({ d1 with updateCounter := 0, trail := t2, currentChar := getRandomChar cs r }, rng1)
      else (d1, rng)
    let d2 := res2.1
    let rng2 := res2.2
    let d3 := { d2 with y := d2.y + d2.speed }
    if d3.y > h then
      let (r1, rng3) := rng2.next
      let (r2, rng4) := rng3.next
      let (r3, rng5) := rng4.next
      ({ d3 with
          y := -(d3.trailLength : ℚ) * fontSize
          speed := (r1 * 2 + 3 / 2) * (speedCfg / 100)
          updateCounter := 0
          updateInterval := (⌊r2 * 4⌋).toNat + 3
          currentChar := getRandomChar cs r3
          trail := [] }, evs, rng5)
    else (d3, evs, rng2)
  else (d, evs, rng)

/-- The `for` loop of `drawDrops` over the drop array. -/
def drawDropsList (cs : CharsetKey) (fontSize speedCfg h : ℚ) (anim : Bool) :
    List Drop → Rng → List Drop × List DrawEvent × Rng
  | [], rng => ([], [], rng)
  | d :: ds, rng =>
    let resD := stepDrop cs fontSize speedCfg h anim d rng
    let resL := drawDropsList cs fontSize speedCfg h anim ds resD.2.2
    (resD.1 :: resL.1, resD.2.1 ++ resL.2.1, resL.2.2)

/-- `MatrixRainCore.drawDrops`. -/
def drawDrops (core : MatrixRainCore) (h : ℚ) (anim : Bool) (rng : Rng) :
    MatrixRainCore × List DrawEvent × Rng :=
  let res := drawDropsList core.currentCharset core.fontSize core.speed h anim core.drops rng
  ({ core with drops := res.1 }, res.2.1, res.2.2)

/-- A partial configuration record for `updateConfig` (absent field = no change). -/
structure PartialConfig where
  fontSize : Option ℚ := none
  density : Option ℚ := none
  speed : Option ℚ := none
  currentCharset : Option CharsetKey := none
  currentTheme : Option ThemeKey := none

/-- The speed-change loop of `updateConfig`: re-randomize every drop's speed
with the spawn formula at the new ratio. -/
def applySpeed (speedCfg : ℚ) : List Drop → Rng → List Drop × Rng
  | [], rng => ([], rng)
  | d :: ds, rng =>
    let (r, rng1) := rng.next
    let res := applySpeed speedCfg ds rng1
    ({ d with speed := (r * 2 + 3 / 2) * (speedCfg / 100) } :: res.1, res.2)

/-- The charset-change loop of `updateConfig`: per drop, a fresh leading
glyph, a fully regenerated trail of `trailLength` glyphs, and
`updateCounter := updateInterval`. -/
def applyCharset (cs : CharsetKey) : List Drop → Rng → List Drop × Rng
  | [], rng => ([], rng)
  | d :: ds, rng =>
    let (r, rng1) := rng.next
    let resT := fillChars cs d.trailLength rng1
    let resL := applyCharset cs ds resT.2
    ({ d with
        currentChar := getRandomChar cs r
        trail := resT.1
        updateCounter := d.updateInterval } :: resL.1, resL.2)

/-- `MatrixRainCore.updateConfig`, applying present fields in source order. -/
def updateConfig (core : MatrixRainCore) (c : PartialConfig) (rng : Rng) :
    MatrixRainCore × Rng :=
  let core1 := match c.fontSize with
    | some v => { core with fontSize := v }
    | none => core
  let core2 := match c.density with
    | some v => { core1 with density := v }
    | none => core1
  let (core3, rngA) := match c.speed with
    | some v =>
      let res := applySpeed v core2.drops rng
      ({ core2 with speed := v, drops := res.1 }, res.2)
    | none => (core2, rng)
  let (core4, rngB) := match c.currentCharset with
    | some v =>
      let res := applyCharset v core3.drops rngA
      ({ core3 with currentCharset := v, drops := res.1 }, res.2)
    | none => (core3, rngA)
  let core5 := match c.currentTheme with
    | some v => { core4 with currentTheme := v }
    | none => core4
  (core5, rngB)

/-- Effect kinds (types/index.ts `InteractionEffect.type`). -/
inductive EffectType
  | ripple
  | explosion
  | text
  | follow
deriving DecidableEq, Repr

/-- A burst particle (types/index.ts). -/
structure Particle where
  x : ℚ
  y : ℚ
  vx : ℚ
  vy : ℚ
  life : ℚ
  maxLife : ℚ
  char : Char
deriving DecidableEq, Repr

/-- An `InteractionEffect` record (types/index.ts), with optional fields. -/
structure InteractionEffect where
  x : ℚ
  y : ℚ
  type : EffectType
  life : ℚ
  maxLife : ℚ
  radius : ℚ
  text : Option String := none
  particles : Option (List Particle) := none
  followerCount : Option ℚ := none
deriving DecidableEq, Repr

/-- The per-particle body of the explosion branch of `renderEffects`: when
animating, `x += vx; y += vy; vy += 0.2; life -= 0.03`; then the particle is
drawn iff its own post-update fade fraction is positive. -/
def stepParticle (anim : Bool) (p : Particle) : Particle × List DrawEvent :=
  let p1 := if anim then
      { p with x := p.x + p.vx, y := p.y + p.vy, vy := p.vy + 1 / 5, life := p.life - 3 / 100 }
    else p
  let a := p1.life / p1.maxLife
  (p1, if a > 0 then [.glyph p1.char p1.x p1.y a] else [])

/-- `effect.followerCount || 10`: a missing or zero (falsy) field falls back
to 10. -/
def followerFallback (fc : Option ℚ) : ℚ :=
  match fc with
  | none => 10
  | some v => if v = 0 then 10 else v

/-- The follower draw loop of `renderEffects`: glyph `j` (while `j < fc`) has
fade `alpha * (1 - j / fc)`; when that is `≤ 0` it is skipped (consuming no
random draw), otherwise a fresh random glyph is drawn at
`(x + Math.sin(j) * 10, y + j * 15)`.  `fuel` counts the remaining
iterations; the caller passes `⌈fc⌉.toNat`, the number of naturals below
`fc`. -/
def followerLoop (sinj : ℕ → ℚ) (cs : CharsetKey) (x y alpha fc : ℚ) :
    ℕ → ℕ → Rng → List DrawEvent × Rng
  | _, 0, rng => ([], rng)
  | j, fuel + 1, rng =>
    let fAlpha := alpha * (1 - (j : ℚ) / fc)
    if fAlpha ≤ 0 then followerLoop sinj cs x y alpha fc (j + 1) fuel rng
    else
      let (r, rng1) := rng.next
      let (rest, rng2) := followerLoop sinj cs x y alpha fc (j + 1) fuel rng1
      (.glyph (getRandomChar cs r) (x + sinj j * 10) (y + (j : ℚ) * 15) fAlpha :: rest, rng2)

/-- The per-effect body of the `renderEffects` loop.  `alpha` is computed
from the life at loop entry, before the per-kind decrement; the removal test
compares that pre-decrement `alpha` (and, for text, the payload's
truthiness).  Returns `none` when the effect is spliced out.  `sinj` models
`Math.sin` at the natural-number arguments the source uses. -/
def stepEffect (sinj : ℕ → ℚ) (cs : CharsetKey) (fontSize : ℚ) (anim : Bool)
    (e : InteractionEffect) (rng : Rng) : Option InteractionEffect × List DrawEvent × Rng :=
  let alpha := e.life / e.maxLife
  match e.type with
  | .ripple =>
    if anim then
      let e1 := { e with life := e.life - 1 / 50, radius := e.radius + 3 }
      if alpha ≤ 0 then (none, [], rng)
      else (some e1, [.circle e1.x e1.y e1.radius alpha], rng)
    else (some e, [.circle e.x e.y e.radius alpha], rng)
  | .explosion =>
    if anim then
      let e1 := { e with life := e.life - 3 / 100 }
      if alpha ≤ 0 then (none, [], rng)
      else
        match e1.particles with
        | none => (some e1, [], rng)
        | some ps =>
          let stepped := ps.map (stepParticle true)
          (some { e1 with particles := some (stepped.map Prod.fst) },
            (stepped.map Prod.snd).flatten, rng)
    else
      match e.particles with
      | none => (some e, [], rng)
      | some ps => (some e, ((ps.map (stepParticle false)).map Prod.snd).flatten, rng)
  | .text =>
    let isEmpty := match e.text with
      | none => true
      | some s => s = ""
    if anim then
      let e1 := { e with life := e.life - 3 / 200 }
      if alpha ≤ 0 ∨ isEmpty = true then (none, [], rng)
      else (some e1, [.textDraw e1.text e1.x e1.y alpha (fontSize + 10)], rng)
    else (some e, [.textDraw e.text e.x e.y alpha (fontSize + 10)], rng)
  | .follow =>
    let fc := followerFallback e.followerCount
    if anim then
      let e1 := { e with life := e.life - 1 / 100 }
      if alpha ≤ 0 then (none, [], rng)
      else
        let res := followerLoop sinj cs e.x e.y alpha fc 0 (⌈fc⌉).toNat rng
        (some e1, res.1, res.2)
    else
      let res := followerLoop sinj cs e.x e.y alpha fc 0 (⌈fc⌉).toNat rng
      (some e, res.1, res.2)

/-- The `EffectRenderer` private state. -/
structure EffectRenderer where
  effects : List InteractionEffect := []
  currentTheme : ThemeKey := .green

/-- `EffectRenderer.addEffect`: push onto the collection. -/
def addEffect (er : EffectRenderer) (e : InteractionEffect) : EffectRenderer :=
  { er with effects := er.effects ++ [e] }

/-- The `renderEffects` loop body over an (already reversed) effect list:
the source iterates the array from the last index down to 0, splicing the
current element in place, so each element is visited once and survivors keep
their relative order. -/
def renderList (sinj : ℕ → ℚ) (cs : CharsetKey) (fontSize : ℚ) (anim : Bool) :
    List InteractionEffect → Rng → List InteractionEffect × List DrawEvent × Rng
  | [], rng => ([], [], rng)
  | e :: rest, rng =>
    let resE := stepEffect sinj cs fontSize anim e rng
    let resL := renderList sinj cs fontSize anim rest resE.2.2
    ((match resE.1 with
      | some e1 => e1 :: resL.1
      | none => resL.1), resE.2.1 ++ resL.2.1, resL.2.2)

/-- `EffectRenderer.renderEffects`: iterate in reverse index order. -/
def renderEffects (er : EffectRenderer) (sinj : ℕ → ℚ) (fontSize : ℚ)
    (cs : CharsetKey) (anim : Bool) (rng : Rng) : EffectRenderer × List DrawEvent × Rng :=
  let res := renderList sinj cs fontSize anim er.effects.reverse rng
  ({ er with effects := res.1.reverse }, res.2.1, res.2.2)

/-- `EffectRenderer.updateTheme`. -/
def updateTheme (er : EffectRenderer) (t : ThemeKey) : EffectRenderer :=
  { er with currentTheme := t }

/-- `EffectRenderer.clearEffects`. -/
def clearEffects (er : EffectRenderer) : EffectRenderer :=
  { er with effects := [] }

/-- A burst particle of the interaction handler, over `ℝ`: the velocity
components use real trigonometry. -/
structure RParticle where
  x : ℝ
  y : ℝ
  vx : ℝ
  vy : ℝ
  life : ℚ
  maxLife : ℚ
  char : Char

/-- The effect record synthesized by the interaction handler, over `ℝ`. -/
structure REffect where
  x : ℝ
  y : ℝ
  type : EffectType
  life : ℚ
  maxLife : ℚ
  radius : ℚ
  particles : List RParticle

/-- The `InteractionHandler` private state (last recorded pointer position). -/
structure InteractionHandler where
  mouseX : ℝ := 0
  mouseY : ℝ := 0

/-- Particle `i` of `handleClick`: `angle = (Math.PI * 2 * i) / particleCount`,
`speed = Math.random() * 5 + 2`, velocity `(cos(angle) * speed,
sin(angle) * speed)`, glyph from the given charset.  Particle `i` consumes
stream draws `2*i` (speed) and `2*i + 1` (glyph), in source order. -/
noncomputable def clickParticle (x y : ℝ) (cs : CharsetKey) (n i : ℕ) (g : ℕ → ℚ) :
    RParticle :=
  let angle : ℝ := Real.pi * 2 * (i : ℝ) / (n : ℝ)
  let speed : ℚ := g (2 * i) * 5 + 2
  { x := x
    y := y
    vx := Real.cos angle * (speed : ℝ)
    vy := Real.sin angle * (speed : ℝ)
    life := 1
    maxLife := 1
    char := getRandomChar cs (g (2 * i + 1)) }

/-- `InteractionHandler.handleClick`: one explosion effect at `(x, y)` with
`life = maxLife = 1`, `radius = 10` and `particleCount` particles
(`10` on mobile, `20` otherwise), handed to the add-effect callback; the
returned list is the effects dispatched by this call. -/
noncomputable def handleClick (h : InteractionHandler) (x y : ℝ) (cs : CharsetKey)
    (mobile : Bool) (g : ℕ → ℚ) : InteractionHandler × List REffect :=
  let n : ℕ := if mobile then 10 else 20
  (h, [{ x := x
         y := y
         type := .explosion
         life := 1
         maxLife := 1
         radius := 10
         particles := (List.range n).map fun i => clickParticle x y cs n i g }])

/-- A ripple just above expiry: dies on this tick's decrement. -/
def c1Effect : InteractionEffect :=
  { x := 0, y := 0, type := .ripple, life := 1 / 100, maxLife := 1, radius := 5 }

/-- A ripple already at zero life at tick entry. -/
def c1DeadEffect : InteractionEffect :=
  { x := 0, y := 0, type := .ripple, life := 0, maxLife := 1, radius := 5 }

theorem charsets_length_pos (key : CharsetKey) : 0 < (CHARSETS key).length := by
  cases key <;> decide

theorem floor_mul_lt {r : ℚ} {L : ℕ} (hL : 0 < L) (h0 : 0 ≤ r) (h1 : r < 1) :
    (⌊r * (L : ℚ)⌋).toNat < L := by
  have hLq : (0 : ℚ) < (L : ℚ) := by exact_mod_cast hL
  have h2 : r * (L : ℚ) < (L : ℚ) := by
    calc r * (L : ℚ) < 1 * (L : ℚ) := by exact mul_lt_mul_of_pos_right h1 hLq
    _ = (L : ℚ) := one_mul _
  have h3 : ⌊r * (L : ℚ)⌋ < (L : ℤ) := by
    rw [Int.floor_lt]
    exact_mod_cast h2
  have h4 : 0 ≤ ⌊r * (L : ℚ)⌋ := Int.floor_nonneg.mpr (by positivity)
  omega

theorem getRandomChar_mem (key : CharsetKey) {r : ℚ} (h0 : 0 ≤ r) (h1 : r < 1) :
    getRandomChar key r ∈ CHARSETS key := by
  unfold getRandomChar
  have hidx := floor_mul_lt (charsets_length_pos key) h0 h1
  rw [List.getD_eq_getElem _ _ hidx]
  exact List.getElem_mem _

theorem getRandomChar_bin {r : ℚ} (h0 : 0 ≤ r) (h1 : r < 1) :
    getRandomChar .bin r = '0' ∨ getRandomChar .bin r = '1' := by
  have hmem := getRandomChar_mem .bin h0 h1
  have hb : CHARSETS CharsetKey.bin = ['0', '1'] := by decide
  rw [hb] at hmem
  simpa using hmem

/-- C1 (counterexample): a ripple with `remainingLife = 1/100`, `maxLife = 1`
entering an animating tick has post-decrement fade `-1/100 ≤ 0`, yet it stays
in the collection (with `life = -1/100`) and a circle IS drawn for it that
tick — refuting both "removed after the decrement when the fade is ≤ 0" and
"an effect with `remainingLife ≤ 0` is never drawn". -/
theorem C1_counterexample :
    (renderEffects { effects := [c1Effect] } (fun _ => 0) 24 .en true ⟨fun _ => 0, 0⟩).1.effects =
      [{ c1Effect with life := -1 / 100, radius := 8 }] ∧
    (renderEffects { effects := [c1Effect] } (fun _ => 0) 24 .en true ⟨fun _ => 0, 0⟩).2.1 =
      [.circle 0 0 8 (1 / 100)] ∧
    ({ c1Effect with life := -1 / 100, radius := 8 } : InteractionEffect).life ≤ 0 := by
  refine ⟨?_, ?_, by norm_num [c1Effect]⟩ <;>
    norm_num [renderEffects, renderList, stepEffect, c1Effect, Rng.next]

/-- C1 (amended): removal in `renderEffects` is decided by the fade fraction
computed from the life at tick entry (before this tick's decrement): on an
animating tick, every effect whose entry fade `life / maxLife` is `≤ 0` (or,
for a text effect, whose payload is missing/empty) is removed from the
collection and no draw occurs for it that tick.  An effect whose life first
becomes `≤ 0` by this tick's decrement is still drawn this tick and is
removed on the next animating tick. -/
theorem C1_expiredRemovedUndrawn (sinj : ℕ → ℚ) (cs : CharsetKey) (fontSize : ℚ)
    (t : ThemeKey) (e : InteractionEffect) (rng : Rng)
    (h : e.life / e.maxLife ≤ 0 ∨ (e.type = .text ∧ (e.text = none ∨ e.text = some ""))) :
    stepEffect sinj cs fontSize true e rng = (none, [], rng) ∧
    (renderEffects { effects := [e], currentTheme := t } sinj fontSize cs true rng).1.effects = [] ∧
    (renderEffects { effects := [e], currentTheme := t } sinj fontSize cs true rng).2.1 = [] := by
  have hstep : stepEffect sinj cs fontSize true e rng = (none, [], rng) := by
    rcases h with h | ⟨ht, hempty⟩
    · cases htype : e.type <;> simp [stepEffect, htype, h]
    · rcases hempty with he | he <;> simp [stepEffect, ht, he]
  refine ⟨hstep, ?_, ?_⟩ <;> simp [renderEffects, renderList, hstep]

/-- C1 (witness): the amended theorem applied to a ripple whose life is 0 at
tick entry: it is removed with no draw. -/
theorem C1_expiredRemovedUndrawn_witness :
    stepEffect (fun _ => 0) .en 24 true c1DeadEffect ⟨fun _ => 0, 0⟩ =
      (none, [], (⟨fun _ => 0, 0⟩ : Rng)) ∧
    (renderEffects { effects := [c1DeadEffect], currentTheme := .green } (fun _ => 0) 24 .en true
      ⟨fun _ => 0, 0⟩).1.effects = [] ∧
    (renderEffects { effects := [c1DeadEffect], currentTheme := .green } (fun _ => 0) 24 .en true
      ⟨fun _ => 0, 0⟩).2.1 = [] :=
  C1_expiredRemovedUndrawn (fun _ => 0) .en 24 .green c1DeadEffect ⟨fun _ => 0, 0⟩
    (Or.inl (by norm_num [c1DeadEffect]))

/-- A follower effect whose `followerCount` field is unset. -/
def c2Effect : InteractionEffect :=
  { x := 0, y := 0, type := .follow, life := 1, maxLife := 1, radius := 0 }

/-- When the entry fade is positive and the whole iteration range lies below
`fc`, the follower loop draws one glyph per iteration, in order, consuming one
random draw each. -/
theorem followerLoop_pos (sinj : ℕ → ℚ) (cs : CharsetKey) (x y alpha fc : ℚ)
    (halpha : 0 < alpha) (hfc : 0 < fc) :
    ∀ (n j : ℕ) (g : ℕ → ℚ) (k : ℕ), ((j : ℚ) + (n : ℚ)) ≤ fc →
      followerLoop sinj cs x y alpha fc j n ⟨g, k⟩ =
        ((List.range n).map fun t =>
          DrawEvent.glyph (getRandomChar cs (g (k + t))) (x + sinj (j + t) * 10)
            (y + ((j : ℚ) + (t : ℚ)) * 15) (alpha * (1 - ((j : ℚ) + (t : ℚ)) / fc)),
         (⟨g, k + n⟩ : Rng)) := by
  intro n
  induction n with
  | zero => intro j g k _; simp [followerLoop]
  | succ m ih =>
    intro j g k hle
    have hm : (0 : ℚ) ≤ (m : ℚ) := by positivity
    have hjlt : (j : ℚ) < fc := by push_cast at hle; linarith
    have hpos : 0 < alpha * (1 - (j : ℚ) / fc) := by
      have h1 : (j : ℚ) / fc < 1 := (div_lt_one hfc).mpr hjlt
      have h2 : (0 : ℚ) < 1 - (j : ℚ) / fc := by linarith
      exact mul_pos halpha h2
    have hrec := ih (j + 1) g (k + 1) (by push_cast at hle ⊢; linarith)
    simp only [followerLoop, Rng.next, if_neg (not_le.mpr hpos), hrec]
    rw [List.range_succ_eq_map, List.map_cons, List.map_map]
    refine Prod.ext ?_ ?_
    · simp only [List.cons.injEq]
      constructor
      · simp
      · refine List.map_congr_left fun t _ => ?_
        have e1 : j + 1 + t = j + (t + 1) := by omega
        have e2 : k + 1 + t = k + (t + 1) := by omega
        simp only [Function.comp_apply, Nat.succ_eq_add_one, e1, e2]
        congr 1 <;> push_cast <;> ring
    · simp only []
      congr 1
      omega

/-- C2 (counterexample): a follower effect with `followerCount` unset draws
exactly 10 phantom glyphs per `renderEffects` call (the source fallback is
`effect.followerCount || 10`), not 15 as claimed. -/
theorem C2_counterexample :
    ((stepEffect (fun _ => 0) .en 24 false c2Effect ⟨fun _ => 0, 0⟩).2.1).length = 10 ∧
    ¬ ((stepEffect (fun _ => 0) .en 24 false c2Effect ⟨fun _ => 0, 0⟩).2.1).length = 15 := by
  have h := followerLoop_pos (fun _ => 0) .en 0 0 1 10 one_pos (by norm_num) 10 0
    (fun _ => 0) 0 (by norm_num)
  have hton : Int.toNat 10 = 10 := rfl
  have hstep : (stepEffect (fun _ => 0) .en 24 false c2Effect ⟨fun _ => 0, 0⟩).2.1 =
      (followerLoop (fun _ => 0) .en 0 0 1 10 0 10 ⟨fun _ => 0, 0⟩).1 := by
    norm_num [stepEffect, c2Effect, followerFallback, hton]
  rw [hstep, h]
  simp

/-- C2 (amended): for every follower effect whose `followerCount` field is
unset and whose entry fade `life / maxLife` is positive, each `renderEffects`
draw call (animating or paused) draws exactly 10 phantom glyphs — the source
fallback `effect.followerCount || 10` — glyph `j` (0-indexed) at
`(x + sin(j) * 10, y + j * 15)` with fade `(life / maxLife) * (1 - j / 10)`;
no glyph is skipped since every such fade is positive. -/
theorem C2_followerDrawsTen (sinj : ℕ → ℚ) (cs : CharsetKey) (fontSize : ℚ)
    (anim : Bool) (e : InteractionEffect) (g : ℕ → ℚ) (k : ℕ)
    (htype : e.type = .follow) (hfc : e.followerCount = none)
    (halpha : 0 < e.life / e.maxLife) :
    (stepEffect sinj cs fontSize anim e ⟨g, k⟩).2.1 =
      (List.range 10).map fun j =>
        DrawEvent.glyph (getRandomChar cs (g (k + j))) (e.x + sinj j * 10)
          (e.y + (j : ℚ) * 15) (e.life / e.maxLife * (1 - (j : ℚ) / 10)) := by
  have hloop := followerLoop_pos sinj cs e.x e.y (e.life / e.maxLife) 10 halpha
    (by norm_num) 10 0 g k (by norm_num)
  have hfall : followerFallback e.followerCount = 10 := by rw [hfc]; rfl
  have hton : Int.toNat 10 = 10 := rfl
  cases anim <;>
    simp only [stepEffect, htype, hfall, if_neg (not_le.mpr halpha)] <;>
    norm_num [hton, hloop]

/-- C2 (witness): the amended theorem at a concrete unset-count follower. -/
theorem C2_followerDrawsTen_witness :
    (stepEffect (fun _ => 1) .bin 24 true c2Effect ⟨fun _ => 1 / 2, 0⟩).2.1 =
      (List.range 10).map fun j =>
        DrawEvent.glyph (getRandomChar .bin ((fun _ => (1 : ℚ) / 2) (0 + j)))
          (c2Effect.x + (fun _ => (1 : ℚ)) j * 10) (c2Effect.y + (j : ℚ) * 15)
          (c2Effect.life / c2Effect.maxLife * (1 - (j : ℚ) / 10)) :=
  C2_followerDrawsTen (fun _ => 1) .bin 24 true c2Effect (fun _ => 1 / 2) 0 rfl rfl
    (by norm_num [c2Effect])

/-- A follower effect whose `followerCount` field is present but zero. -/
def c10Effect : InteractionEffect :=
  { x := 3, y := 4, type := .follow, life := 1, maxLife := 1, radius := 0,
    followerCount := some 0 }

/-- C10: a follower effect whose `followerCount` field equals 0 is treated
exactly like one whose field is unset (`effect.followerCount || 10` is falsy
on 0): the draw calls and random-stream use of a `renderEffects` visit are
identical to the unset case, and with a positive entry fade exactly 10
phantom glyphs are drawn — never zero. -/
theorem C10_zeroFollowerFallback (sinj : ℕ → ℚ) (cs : CharsetKey) (fontSize : ℚ)
    (anim : Bool) (e : InteractionEffect) (g : ℕ → ℚ) (k : ℕ)
    (htype : e.type = .follow) (hfc : e.followerCount = some 0)
    (halpha : 0 < e.life / e.maxLife) :
    (stepEffect sinj cs fontSize anim e ⟨g, k⟩).2 =
      (stepEffect sinj cs fontSize anim { e with followerCount := none } ⟨g, k⟩).2 ∧
    ((stepEffect sinj cs fontSize anim e ⟨g, k⟩).2.1).length = 10 := by
  have hfall : followerFallback e.followerCount = 10 := by
    rw [hfc]; simp [followerFallback]
  have hloop := followerLoop_pos sinj cs e.x e.y (e.life / e.maxLife) 10 halpha
    (by norm_num) 10 0 g k (by norm_num)
  have hton : Int.toNat 10 = 10 := rfl
  constructor
  · cases anim
    · norm_num [stepEffect, htype, hfc, followerFallback, hton]
    · norm_num [stepEffect, htype, hfc, followerFallback, hton]
      rw [if_neg (not_le.mpr halpha), if_neg (not_le.mpr halpha)]
  · cases anim <;>
      simp only [stepEffect, htype, hfall, if_neg (not_le.mpr halpha)] <;>
      norm_num [hton, hloop]

/-- C10 (witness): the theorem at a concrete zero-count follower. -/
theorem C10_zeroFollowerFallback_witness :
    (stepEffect (fun _ => 0) .en 24 true c10Effect ⟨fun _ => 0, 0⟩).2 =
      (stepEffect (fun _ => 0) .en 24 true { c10Effect with followerCount := none }
        ⟨fun _ => 0, 0⟩).2 ∧
    ((stepEffect (fun _ => 0) .en 24 true c10Effect ⟨fun _ => 0, 0⟩).2.1).length = 10 :=
  C10_zeroFollowerFallback (fun _ => 0) .en 24 true c10Effect (fun _ => 0) 0 rfl rfl
    (by norm_num [c10Effect])

theorem drawDropsList_paused (cs : CharsetKey) (fontSize speedCfg h : ℚ) :
    ∀ (ds : List Drop) (rng : Rng),
      drawDropsList cs fontSize speedCfg h false ds rng =
        (ds, (ds.map fun d => trailEvents d fontSize ++
          [.rainGlyph d.currentChar (d.xIndex.map fun i => (i : ℚ) * fontSize) d.y 1]).flatten,
         rng)
  | [], _ => by simp [drawDropsList]
  | d :: ds, rng => by
    simp [drawDropsList, stepDrop, drawDropsList_paused cs fontSize speedCfg h ds rng]

theorem stepEffect_paused_fst (sinj : ℕ → ℚ) (cs : CharsetKey) (fontSize : ℚ)
    (e : InteractionEffect) (rng : Rng) :
    (stepEffect sinj cs fontSize false e rng).1 = some e := by
  cases htype : e.type
  · simp [stepEffect, htype]
  · cases hp : e.particles <;> simp [stepEffect, htype, hp]
  · simp [stepEffect, htype]
  · simp [stepEffect, htype]

theorem renderList_paused (sinj : ℕ → ℚ) (cs : CharsetKey) (fontSize : ℚ) :
    ∀ (es : List InteractionEffect) (rng : Rng),
      (renderList sinj cs fontSize false es rng).1 = es
  | [], _ => by simp [renderList]
  | e :: es, rng => by
    rw [renderList, show stepEffect sinj cs fontSize false e rng =
      (some e, (stepEffect sinj cs fontSize false e rng).2) from
        Prod.ext (stepEffect_paused_fst sinj cs fontSize e rng) rfl]
    simp [renderList_paused sinj cs fontSize es]

/-- C4: when `isAnimating` is false, `drawDrops` and `renderEffects` mutate no
state.  `drawDrops` returns the core (every drop field included) unchanged,
consumes no randomness, and emits draw events that depend only on the state
(so a frozen rain frame is redrawn identically on every repeat);
`renderEffects` keeps the effect collection — membership and every effect's
fields, particles included — unchanged. -/
theorem C4_pauseFrozen (core : MatrixRainCore) (h : ℚ) (rng rng2 : Rng)
    (er : EffectRenderer) (sinj : ℕ → ℚ) (fontSize : ℚ) (cs : CharsetKey) :
    (drawDrops core h false rng).1 = core ∧
    (drawDrops core h false rng).2.2 = rng ∧
    (drawDrops core h false rng).2.1 = (drawDrops core h false rng2).2.1 ∧
    (renderEffects er sinj fontSize cs false rng).1.effects = er.effects := by
  refine ⟨?_, ?_, ?_, ?_⟩
  · simp [drawDrops, drawDropsList_paused]
  · simp [drawDrops, drawDropsList_paused]
  · simp [drawDrops, drawDropsList_paused]
  · simp [renderEffects, renderList_paused]

theorem drawDropsList_length (cs : CharsetKey) (fontSize speedCfg h : ℚ) (anim : Bool) :
    ∀ (ds : List Drop) (rng : Rng),
      ((drawDropsList cs fontSize speedCfg h anim ds rng).1).length = ds.length
  | [], _ => rfl
  | d :: ds, rng => by
    simp [drawDropsList, drawDropsList_length cs fontSize speedCfg h anim ds]

/-- A drop used in concrete witness instantiations: it is far below a
100-pixel-high canvas and its counter is far from its refresh interval. -/
def c5Drop : Drop :=
  { y := 200, speed := 1, trail := ['A'], trailLength := 8, updateCounter := 0,
    updateInterval := 3, currentChar := 'B', xIndex := some 0 }

/-- C5: a drop whose advanced position `y + speed` exceeds the canvas height
is respawned in place on that same animating tick: `y` becomes
`-trailLength * cellSize` (strictly negative for positive cell size), the
speed is re-drawn by the spawn formula `(r*2 + 1.5) * (speedPercent/100)`
(landing in `[1.5, 3.5) * speedPercent/100` for a positive speed setting),
the update interval is re-drawn in `[3, 6]`, a fresh random glyph is
assigned, the trail is cleared — and no drop is ever destroyed: `drawDrops`
preserves the drop count.  (The hypothesis `updateCounter + 1 <
updateInterval` pins the tick to one without a glyph-refresh so the random
draws used by the respawn are the stream's next three.) -/
theorem C5_respawn (cs : CharsetKey) (fontSize speedCfg h : ℚ) (d : Drop)
    (g : ℕ → ℚ) (k : ℕ) (core : MatrixRainCore) (rng : Rng) (anim : Bool)
    (hg : RngOk g) (hfs : 0 < fontSize) (htl : 0 < d.trailLength)
    (hcnt : d.updateCounter + 1 < d.updateInterval)
    (hfall : d.y + d.speed > h) :
    (stepDrop cs fontSize speedCfg h true d ⟨g, k⟩).1 =
      { y := -(d.trailLength : ℚ) * fontSize
        speed := (g k * 2 + 3 / 2) * (speedCfg / 100)
        trail := []
        trailLength := d.trailLength
        updateCounter := 0
        updateInterval := (⌊g (k + 1) * 4⌋).toNat + 3
        currentChar := getRandomChar cs (g (k + 2))
        xIndex := d.xIndex } ∧
    (stepDrop cs fontSize speedCfg h true d ⟨g, k⟩).1.y < 0 ∧
    3 ≤ (stepDrop cs fontSize speedCfg h true d ⟨g, k⟩).1.updateInterval ∧
    (stepDrop cs fontSize speedCfg h true d ⟨g, k⟩).1.updateInterval ≤ 6 ∧
    (0 < speedCfg →
      3 / 2 * (speedCfg / 100) ≤ (stepDrop cs fontSize speedCfg h true d ⟨g, k⟩).1.speed ∧
      (stepDrop cs fontSize speedCfg h true d ⟨g, k⟩).1.speed < 7 / 2 * (speedCfg / 100)) ∧
    (stepDrop cs fontSize speedCfg h true d ⟨g, k⟩).2.2 = (⟨g, k + 3⟩ : Rng) ∧
    (drawDrops core h anim rng).1.drops.length = core.drops.length := by
  have hc1 : ¬ d.updateCounter + 1 ≥ d.updateInterval := by omega
  have hstep : stepDrop cs fontSize speedCfg h true d ⟨g, k⟩ =
      ({ y := -(d.trailLength : ℚ) * fontSize
         speed := (g k * 2 + 3 / 2) * (speedCfg / 100)
         trail := []
         trailLength := d.trailLength
         updateCounter := 0
         updateInterval := (⌊g (k + 1) * 4⌋).toNat + 3
         currentChar := getRandomChar cs (g (k + 2))
         xIndex := d.xIndex },
       trailEvents d fontSize ++
         [.rainGlyph d.currentChar (d.xIndex.map fun i => (i : ℚ) * fontSize) d.y 1],
       (⟨g, k + 3⟩ : Rng)) := by
    simp [stepDrop, Rng.next, hc1, hfall]
  obtain ⟨h0, h1⟩ := hg k
  obtain ⟨h2, h3⟩ := hg (k + 1)
  have htlq : (0 : ℚ) < (d.trailLength : ℚ) := by exact_mod_cast htl
  have hflo : 0 ≤ ⌊g (k + 1) * 4⌋ := Int.floor_nonneg.mpr (by positivity)
  have hfhi : ⌊g (k + 1) * 4⌋ < 4 := by
    rw [Int.floor_lt]
    push_cast
    linarith
  refine ⟨by rw [hstep], ?_, ?_, ?_, ?_, by rw [hstep], ?_⟩
  · rw [hstep]
    have : (0 : ℚ) < (d.trailLength : ℚ) * fontSize := mul_pos htlq hfs
    simpa using this
  · rw [hstep]
    simp
  · rw [hstep]
    simp only []
    omega
  · intro hsc
    rw [hstep]
    have hscale : (0 : ℚ) < speedCfg / 100 := by positivity
    constructor
    · simp only []
      nlinarith
    · simp only []
      nlinarith
  · simp [drawDrops, drawDropsList_length]

/-- C5 (witness): the respawn theorem at a concrete drop below the canvas. -/
theorem C5_respawn_witness :
    (stepDrop .en 24 100 100 true c5Drop ⟨fun _ => 1 / 2, 0⟩).1 =
      { y := -(c5Drop.trailLength : ℚ) * 24
        speed := ((fun _ => (1 : ℚ) / 2) 0 * 2 + 3 / 2) * (100 / 100)
        trail := []
        trailLength := c5Drop.trailLength
        updateCounter := 0
        updateInterval := (⌊(fun _ => (1 : ℚ) / 2) 1 * 4⌋).toNat + 3
        currentChar := getRandomChar .en ((fun _ => (1 : ℚ) / 2) 2)
        xIndex := c5Drop.xIndex } ∧
    (stepDrop .en 24 100 100 true c5Drop ⟨fun _ => 1 / 2, 0⟩).1.y < 0 ∧
    3 ≤ (stepDrop .en 24 100 100 true c5Drop ⟨fun _ => 1 / 2, 0⟩).1.updateInterval ∧
    (stepDrop .en 24 100 100 true c5Drop ⟨fun _ => 1 / 2, 0⟩).1.updateInterval ≤ 6 ∧
    ((0 : ℚ) < 100 →
      3 / 2 * (100 / 100) ≤ (stepDrop .en 24 100 100 true c5Drop ⟨fun _ => 1 / 2, 0⟩).1.speed ∧
      (stepDrop .en 24 100 100 true c5Drop ⟨fun _ => 1 / 2, 0⟩).1.speed < 7 / 2 * (100 / 100)) ∧
    (stepDrop .en 24 100 100 true c5Drop ⟨fun _ => 1 / 2, 0⟩).2.2 = (⟨fun _ => 1 / 2, 0 + 3⟩ : Rng) ∧
    (drawDrops {} 100 false ⟨fun _ => 0, 0⟩).1.drops.length = ({} : MatrixRainCore).drops.length :=
  C5_respawn .en 24 100 100 c5Drop (fun _ => 1 / 2) 0 {} ⟨fun _ => 0, 0⟩ false
    (fun _ => ⟨by norm_num, by norm_num⟩) (by norm_num) (by norm_num [c5Drop])
    (by norm_num [c5Drop]) (by norm_num [c5Drop])

/-- One externally triggered operation against a live `MatrixRainCore`:
a `drawDrops` frame (animating or paused) or an `updateConfig` call. -/
inductive CoreOp
  | tick (h : ℚ) (anim : Bool)
  | config (c : PartialConfig)

/-- Run a sequence of operations, threading the state and the random stream. -/
def runOps : MatrixRainCore → List CoreOp → Rng → MatrixRainCore × Rng
  | core, [], rng => (core, rng)
  | core, CoreOp.tick h anim :: rest, rng =>
    let res := drawDrops core h anim rng
    runOps res.1 rest res.2.2
  | core, CoreOp.config c :: rest, rng =>
    let res := updateConfig core c rng
    runOps res.1 rest res.2

/-- The trail invariant: the fixed trail capacity is 8 and the trail never
holds more glyphs than that. -/
def TrailOk (d : Drop) : Prop := d.trailLength = 8 ∧ d.trail.length ≤ 8

theorem fillChars_length (cs : CharsetKey) :
    ∀ (n : ℕ) (rng : Rng), ((fillChars cs n rng).1).length = n
  | 0, _ => rfl
  | n + 1, rng => by simp [fillChars, fillChars_length cs n]

theorem buildDrops_trail (cs : CharsetKey) (speedRatio w : ℚ) :
    ∀ (sel : List (Option ℕ)) (rng : Rng) (d : Drop),
      d ∈ (buildDrops cs speedRatio w sel rng).1 → d.trail = [] ∧ d.trailLength = 8
  | [], _, d, hd => by simp [buildDrops] at hd
  | idx :: rest, rng, d, hd => by
    simp only [buildDrops, List.mem_cons] at hd
    rcases hd with rfl | hd
    · exact ⟨rfl, rfl⟩
    · exact buildDrops_trail cs speedRatio w rest _ d hd

theorem prefillDrops_trailOk (cs : CharsetKey) :
    ∀ (ds : List Drop) (rng : Rng),
      (∀ d ∈ ds, d.trail = [] ∧ d.trailLength = 8) →
      ∀ d ∈ (prefillDrops cs ds rng).1, TrailOk d
  | [], _, _, d, hd => by simp [prefillDrops] at hd
  | d0 :: ds, rng, hds, d, hd => by
    simp only [prefillDrops, List.mem_cons] at hd
    rcases hd with rfl | hd
    · obtain ⟨hnil, h8⟩ := hds d0 (by simp)
      exact ⟨h8, by simp [hnil, fillChars_length, h8]⟩
    · exact prefillDrops_trailOk cs ds _ (fun x hx => hds x (by simp [hx])) d hd

theorem initDrops_trailOk (core : MatrixRainCore) (w : ℚ) (rng : Rng) :
    ∀ d ∈ (initDrops core w rng).1.drops, TrailOk d := by
  intro d hd
  exact prefillDrops_trailOk _ _ _ (buildDrops_trail _ _ _ _ _) d hd

theorem stepDrop_trailOk (cs : CharsetKey) (fontSize speedCfg h : ℚ) (anim : Bool)
    (d : Drop) (rng : Rng) (hd : TrailOk d) :
    TrailOk (stepDrop cs fontSize speedCfg h anim d rng).1 := by
  obtain ⟨htl, hlen⟩ := hd
  cases anim
  · exact ⟨htl, hlen⟩
  · by_cases hc1 : d.updateCounter + 1 ≥ d.updateInterval
    · by_cases hc3 : d.y + d.speed > h
      · exact ⟨by simp [stepDrop, Rng.next, hc1, hc3, htl],
          by simp [stepDrop, Rng.next, hc1, hc3]⟩
      · by_cases hc2 : d.trail.length + 1 > d.trailLength
        · refine ⟨by simp [stepDrop, Rng.next, hc1, hc2, hc3, htl], ?_⟩
          have : (stepDrop cs fontSize speedCfg h true d rng).1.trail =
              (d.currentChar :: d.trail).dropLast := by
            simp [stepDrop, Rng.next, hc1, hc2, hc3]
          rw [this, List.length_dropLast]
          simp
          omega
        · refine ⟨by simp [stepDrop, Rng.next, hc1, hc2, hc3, htl], ?_⟩
          have : (stepDrop cs fontSize speedCfg h true d rng).1.trail =
              d.currentChar :: d.trail := by
            simp [stepDrop, Rng.next, hc1, hc2, hc3]
          rw [this]
          simp
          omega
    · by_cases hc3 : d.y + d.speed > h
      · exact ⟨by simp [stepDrop, Rng.next, hc1, hc3, htl],
          by simp [stepDrop, Rng.next, hc1, hc3]⟩
      · exact ⟨by simp [stepDrop, Rng.next, hc1, hc3, htl],
          by simpa [stepDrop, Rng.next, hc1, hc3] using hlen⟩

theorem drawDropsList_trailOk (cs : CharsetKey) (fontSize speedCfg h : ℚ) (anim : Bool) :
    ∀ (ds : List Drop) (rng : Rng), (∀ d ∈ ds, TrailOk d) →
      ∀ d ∈ (drawDropsList cs fontSize speedCfg h anim ds rng).1, TrailOk d
  | [], _, _, d, hd => by simp [drawDropsList] at hd
  | d0 :: ds, rng, hds, d, hd => by
    simp only [drawDropsList, List.mem_cons] at hd
    rcases hd with rfl | hd
    · exact stepDrop_trailOk cs fontSize speedCfg h anim d0 rng (hds d0 (by simp))
    · exact drawDropsList_trailOk cs fontSize speedCfg h anim ds _
        (fun x hx => hds x (by simp [hx])) d hd

theorem applySpeed_trailOk (speedCfg : ℚ) :
    ∀ (ds : List Drop) (rng : Rng), (∀ d ∈ ds, TrailOk d) →
      ∀ d ∈ (applySpeed speedCfg ds rng).1, TrailOk d
  | [], _, _, d, hd => by simp [applySpeed] at hd
  | d0 :: ds, rng, hds, d, hd => by
    simp only [applySpeed, List.mem_cons] at hd
    rcases hd with rfl | hd
    · obtain ⟨htl, hlen⟩ := hds d0 (by simp)
      exact ⟨htl, hlen⟩
    · exact applySpeed_trailOk speedCfg ds _ (fun x hx => hds x (by simp [hx])) d hd

theorem applyCharset_trailOk (cs : CharsetKey) :
    ∀ (ds : List Drop) (rng : Rng), (∀ d ∈ ds, TrailOk d) →
      ∀ d ∈ (applyCharset cs ds rng).1, TrailOk d
  | [], _, _, d, hd => by simp [applyCharset] at hd
  | d0 :: ds, rng, hds, d, hd => by
    simp only [applyCharset, List.mem_cons] at hd
    rcases hd with rfl | hd
    · obtain ⟨htl, _⟩ := hds d0 (by simp)
      exact ⟨htl, by simp [fillChars_length, htl]⟩
    · exact applyCharset_trailOk cs ds _ (fun x hx => hds x (by simp [hx])) d hd

theorem updateConfig_trailOk (core : MatrixRainCore) (c : PartialConfig) (rng : Rng)
    (hds : ∀ d ∈ core.drops, TrailOk d) :
    ∀ d ∈ (updateConfig core c rng).1.drops, TrailOk d := by
  unfold updateConfig
  cases c.fontSize <;> cases c.density <;> cases c.speed <;> cases c.currentCharset <;>
    cases c.currentTheme <;>
    simp only [] <;>
    first
      | exact hds
      | exact applySpeed_trailOk _ _ _ hds
      | exact applyCharset_trailOk _ _ _ hds
      | exact applyCharset_trailOk _ _ _ (applySpeed_trailOk _ _ _ hds)

theorem runOps_trailOk :
    ∀ (ops : List CoreOp) (core : MatrixRainCore) (rng : Rng),
      (∀ d ∈ core.drops, TrailOk d) → ∀ d ∈ (runOps core ops rng).1.drops, TrailOk d
  | [], _, _, hds => hds
  | CoreOp.tick h anim :: rest, core, rng, hds => by
    refine runOps_trailOk rest _ _ ?_
    intro d hd
    exact drawDropsList_trailOk _ _ _ h anim core.drops rng hds d hd
  | CoreOp.config c :: rest, core, rng, hds =>
    runOps_trailOk rest _ _ (updateConfig_trailOk core c rng hds)

/-- C6: starting from any `initDrops` call and running any sequence of
`drawDrops` ticks (animating or paused) and `updateConfig` calls, every
drop's trail length stays at most `trailLength` (8): the glyph-refresh step
pushes the leading glyph onto the trail and immediately evicts the oldest
entry whenever the length exceeds 8. -/
theorem C6_trailBound (core : MatrixRainCore) (w : ℚ) (rng rng2 : Rng)
    (ops : List CoreOp) :
    ((runOps (initDrops core w rng).1 ops rng2).1.drops).Forall
      fun d => d.trail.length ≤ 8 := by
  rw [List.forall_iff_forall_mem]
  intro d hd
  exact (runOps_trailOk ops (initDrops core w rng).1 rng2 (initDrops_trailOk core w rng)
    d hd).2

theorem fillChars_g (cs : CharsetKey) :
    ∀ (n : ℕ) (rng : Rng), (fillChars cs n rng).2.g = rng.g
  | 0, _ => rfl
  | n + 1, rng => fillChars_g cs n rng.next.2

theorem fillChars_mem (cs : CharsetKey) :
    ∀ (n : ℕ) (rng : Rng), RngOk rng.g →
      ∀ c ∈ (fillChars cs n rng).1, c ∈ CHARSETS cs
  | 0, _, _, c, hc => by simp [fillChars] at hc
  | n + 1, rng, hg, c, hc => by
    simp only [fillChars, List.mem_cons] at hc
    rcases hc with rfl | hc
    · exact getRandomChar_mem cs (hg rng.k).1 (hg rng.k).2
    · exact fillChars_mem cs n rng.next.2 hg c hc

theorem applyCharset_spec (cs : CharsetKey) :
    ∀ (ds : List Drop) (rng : Rng), RngOk rng.g →
      ∀ d ∈ (applyCharset cs ds rng).1,
        d.currentChar ∈ CHARSETS cs ∧ (∀ c ∈ d.trail, c ∈ CHARSETS cs) ∧
          d.updateCounter = d.updateInterval
  | [], _, _, d, hd => by simp [applyCharset] at hd
  | d0 :: ds, rng, hg, d, hd => by
    simp only [applyCharset, List.mem_cons] at hd
    rcases hd with rfl | hd
    · refine ⟨getRandomChar_mem cs (hg rng.k).1 (hg rng.k).2, ?_, rfl⟩
      intro c hc
      exact fillChars_mem cs d0.trailLength rng.next.2 hg c hc
    · refine applyCharset_spec cs ds _ ?_ d hd
      have := fillChars_g cs d0.trailLength rng.next.2
      rw [this]
      exact hg

/-- C7: `updateConfig` with a new `charsetKey` immediately — within the same
call, before any animating tick — replaces every drop's leading glyph and
whole trail with glyphs from the new charset (for 'bin', members of
`{'0','1'}`) and sets `updateCounter = updateInterval`, so the very next
animating tick satisfies the glyph-refresh condition
`updateCounter + 1 ≥ updateInterval`. -/
theorem C7_charsetUpdate (core : MatrixRainCore) (rng : Rng) (hg : RngOk rng.g) :
    (updateConfig core { currentCharset := some .bin } rng).1.currentCharset = .bin ∧
    ∀ d ∈ (updateConfig core { currentCharset := some .bin } rng).1.drops,
      (d.currentChar = '0' ∨ d.currentChar = '1') ∧
      (∀ c ∈ d.trail, c = '0' ∨ c = '1') ∧
      d.updateCounter = d.updateInterval ∧
      d.updateCounter + 1 ≥ d.updateInterval := by
  have hb : CHARSETS CharsetKey.bin = ['0', '1'] := by decide
  refine ⟨rfl, ?_⟩
  intro d hd
  have hd2 : d ∈ (applyCharset .bin core.drops rng).1 := hd
  obtain ⟨hcur, htrail, hcnt⟩ := applyCharset_spec .bin core.drops rng hg d hd2
  rw [hb] at hcur
  refine ⟨by simpa using hcur, ?_, hcnt, by omega⟩
  intro c hc
  have := htrail c hc
  rw [hb] at this
  simpa using this

/-- C7 (witness): the theorem at a one-drop core with a constant stream. -/
theorem C7_charsetUpdate_witness :
    (updateConfig { drops := [c5Drop] } { currentCharset := some .bin }
      ⟨fun _ => 1 / 2, 0⟩).1.currentCharset = .bin ∧
    ∀ d ∈ (updateConfig { drops := [c5Drop] } { currentCharset := some .bin }
      ⟨fun _ => 1 / 2, 0⟩).1.drops,
      (d.currentChar = '0' ∨ d.currentChar = '1') ∧
      (∀ c ∈ d.trail, c = '0' ∨ c = '1') ∧
      d.updateCounter = d.updateInterval ∧
      d.updateCounter + 1 ≥ d.updateInterval :=
  C7_charsetUpdate { drops := [c5Drop] } ⟨fun _ => 1 / 2, 0⟩
    (fun _ => ⟨by norm_num, by norm_num⟩)

theorem selectIndices_length : ∀ (pool : List ℕ) (n : ℕ) (rng : Rng),
    ((selectIndices pool n rng).1).length = n
  | _, 0, _ => rfl
  | pool, n + 1, rng => by
    simp [selectIndices, selectIndices_length _ n]

theorem buildDrops_xIndex (cs : CharsetKey) (speedRatio w : ℚ) :
    ∀ (sel : List (Option ℕ)) (rng : Rng),
      ((buildDrops cs speedRatio w sel rng).1).map Drop.xIndex = sel
  | [], _ => rfl
  | idx :: rest, rng => by
    simp [buildDrops, buildDrops_xIndex cs speedRatio w rest, buildDrop, Rng.next]

theorem prefillDrops_xIndex (cs : CharsetKey) :
    ∀ (ds : List Drop) (rng : Rng),
      ((prefillDrops cs ds rng).1).map Drop.xIndex = ds.map Drop.xIndex
  | [], _ => rfl
  | d :: ds, rng => by
    simp [prefillDrops, prefillDrops_xIndex cs ds]

/-- With in-range random draws and a duplicate-free pool at least as large as
the number of draws, the selection loop returns pairwise-distinct `some`
values taken from the pool. -/
theorem selectIndices_sound (g : ℕ → ℚ) (hg : RngOk g) :
    ∀ (n : ℕ) (pool : List ℕ) (k : ℕ), pool.Nodup → n ≤ pool.length →
      ((selectIndices pool n ⟨g, k⟩).1).Nodup ∧
      ∀ x ∈ (selectIndices pool n ⟨g, k⟩).1, ∃ i, x = some i ∧ i ∈ pool := by
  intro n
  induction n with
  | zero => intro pool k _ _; simp [selectIndices]
  | succ m ih =>
    intro pool k hnd hle
    have hlen : 0 < pool.length := by omega
    have hidx : (⌊g k * (pool.length : ℚ)⌋).toNat < pool.length :=
      floor_mul_lt hlen (hg k).1 (hg k).2
    have herase : pool.erase pool[(⌊g k * (pool.length : ℚ)⌋).toNat] =
        pool.eraseIdx (⌊g k * (pool.length : ℚ)⌋).toNat :=
      List.Nodup.erase_getElem hnd _ hidx
    have herase_nodup : (pool.eraseIdx (⌊g k * (pool.length : ℚ)⌋).toNat).Nodup := by
      rw [← herase]
      exact hnd.erase _
    have hnotmem : pool[(⌊g k * (pool.length : ℚ)⌋).toNat] ∉
        pool.eraseIdx (⌊g k * (pool.length : ℚ)⌋).toNat := by
      rw [← herase]
      intro hmem
      exact ((List.Nodup.mem_erase_iff hnd).mp hmem).1 rfl
    have hsub : pool.eraseIdx (⌊g k * (pool.length : ℚ)⌋).toNat ⊆ pool := by
      rw [← herase]
      exact fun x hx => List.mem_of_mem_erase hx
    have hlen2 : m ≤ (pool.eraseIdx (⌊g k * (pool.length : ℚ)⌋).toNat).length := by
      have := List.length_eraseIdx_add_one hidx
      omega
    obtain ⟨ihnd, ihmem⟩ := ih (pool.eraseIdx (⌊g k * (pool.length : ℚ)⌋).toNat) (k + 1)
      herase_nodup hlen2
    have hget : pool[(⌊g k * (pool.length : ℚ)⌋).toNat]? =
        some pool[(⌊g k * (pool.length : ℚ)⌋).toNat] :=
      List.getElem?_eq_getElem hidx
    constructor
    · simp only [selectIndices, Rng.next, List.nodup_cons]
      refine ⟨?_, ihnd⟩
      rw [hget]
      intro hmem
      obtain ⟨i, hi, himem⟩ := ihmem _ hmem
      obtain rfl : pool[(⌊g k * (pool.length : ℚ)⌋).toNat] = i := Option.some.inj hi
      exact hnotmem himem
    · simp only [selectIndices, Rng.next, List.mem_cons]
      rintro x (rfl | hx)
      · rw [hget]
        exact ⟨_, rfl, List.getElem_mem hidx⟩
      · obtain ⟨i, hi, himem⟩ := ihmem x hx
        exact ⟨i, hi, hsub himem⟩

/-- C3: for a positive cell size, a density in `(0, 100]` and a positive
surface width, `initDrops` produces exactly
`activeCount = max(1, floor(columns * density/100))` drops
(`columns = ceil(width / cellSize)`), whose `xIndex` values are pairwise
distinct and all lie in `[0, columns)`; and whenever the drop count equals
`columns` (as in `initDrops(1000)` at the 24/100 defaults, where both are 42)
the indices cover all of `[0, columns)`. -/
theorem C3_initDropsSpec (core : MatrixRainCore) (w : ℚ) (g : ℕ → ℚ) (k : ℕ)
    (hg : RngOk g) (hfs : 0 < core.fontSize) (_hden0 : 0 < core.density)
    (hden1 : core.density ≤ 100) (hw : 0 < w) :
    ((initDrops core w ⟨g, k⟩).1.drops).length =
      (actualColumnsFor (columnsFor w core.fontSize) core.density).toNat ∧
    (((initDrops core w ⟨g, k⟩).1.drops).map Drop.xIndex).Nodup ∧
    (∀ d ∈ (initDrops core w ⟨g, k⟩).1.drops,
      ∃ i, d.xIndex = some i ∧ i < (columnsFor w core.fontSize).toNat) ∧
    (((initDrops core w ⟨g, k⟩).1.drops).length = (columnsFor w core.fontSize).toNat →
      ∀ j < (columnsFor w core.fontSize).toNat,
        some j ∈ ((initDrops core w ⟨g, k⟩).1.drops).map Drop.xIndex) := by
  have hcolZ : 1 ≤ columnsFor w core.fontSize := Int.ceil_pos.mpr (div_pos hw hfs)
  have hcol0 : (0 : ℚ) ≤ ((columnsFor w core.fontSize : ℤ) : ℚ) := by
    exact_mod_cast le_trans zero_le_one hcolZ
  have hact : actualColumnsFor (columnsFor w core.fontSize) core.density ≤
      columnsFor w core.fontSize := by
    rw [actualColumnsFor]
    refine max_le hcolZ ?_
    calc ⌊((columnsFor w core.fontSize : ℤ) : ℚ) * (core.density / 100)⌋
        ≤ ⌊((columnsFor w core.fontSize : ℤ) : ℚ)⌋ := by
          refine Int.floor_le_floor ?_
          calc ((columnsFor w core.fontSize : ℤ) : ℚ) * (core.density / 100)
              ≤ ((columnsFor w core.fontSize : ℤ) : ℚ) * 1 := by
                refine mul_le_mul_of_nonneg_left ?_ hcol0
                rw [div_le_one (by norm_num : (0 : ℚ) < 100)]
                exact hden1
          _ = _ := mul_one _
      _ = columnsFor w core.fontSize := Int.floor_intCast _
  have hactN : (actualColumnsFor (columnsFor w core.fontSize) core.density).toNat ≤
      (columnsFor w core.fontSize).toNat := Int.toNat_le_toNat hact
  have hsel := selectIndices_sound g hg
    (actualColumnsFor (columnsFor w core.fontSize) core.density).toNat
    (List.range (columnsFor w core.fontSize).toNat) k
    (List.nodup_range _) (by simpa using hactN)
  obtain ⟨hnd, hmem⟩ := hsel
  have hmap : ((initDrops core w ⟨g, k⟩).1.drops).map Drop.xIndex =
      (selectIndices (List.range (columnsFor w core.fontSize).toNat)
        (actualColumnsFor (columnsFor w core.fontSize) core.density).toNat ⟨g, k⟩).1 := by
    simp only [initDrops]
    rw [prefillDrops_xIndex, buildDrops_xIndex]
  have hlen : ((initDrops core w ⟨g, k⟩).1.drops).length =
      (actualColumnsFor (columnsFor w core.fontSize) core.density).toNat := by
    have := congrArg List.length hmap
    rwa [List.length_map, selectIndices_length] at this
  refine ⟨hlen, ?_, ?_, ?_⟩
  · rw [hmap]
    exact hnd
  · intro d hd
    have : d.xIndex ∈ ((initDrops core w ⟨g, k⟩).1.drops).map Drop.xIndex :=
      List.mem_map_of_mem _ hd
    rw [hmap] at this
    obtain ⟨i, hi, himem⟩ := hmem _ this
    exact ⟨i, hi, List.mem_range.mp himem⟩
  · intro hfull j hj
    by_contra hjmem
    set sel := (selectIndices (List.range (columnsFor w core.fontSize).toNat)
      (actualColumnsFor (columnsFor w core.fontSize) core.density).toNat ⟨g, k⟩).1 with hseldef
    have hjmem2 : some j ∉ sel := by
      rw [← hmap]
      exact hjmem
    have hlensel : sel.length = (columnsFor w core.fontSize).toNat := by
      have h1 : sel.length =
          (actualColumnsFor (columnsFor w core.fontSize) core.density).toNat := by
        rw [hseldef, selectIndices_length]
      omega
    have hsub : sel.toFinset ⊆
        ((Finset.range (columnsFor w core.fontSize).toNat).image some).erase (some j) := by
      intro x hx
      rw [List.mem_toFinset] at hx
      obtain ⟨i, rfl, himem⟩ := hmem x hx
      refine Finset.mem_erase.mpr ⟨?_, Finset.mem_image.mpr
        ⟨i, Finset.mem_range.mpr (List.mem_range.mp himem), rfl⟩⟩
      intro hcontra
      obtain rfl : i = j := Option.some.inj hcontra
      exact hjmem2 hx
    have hcard1 : sel.toFinset.card = (columnsFor w core.fontSize).toNat := by
      rw [List.toFinset_card_of_nodup hnd, hlensel]
    have himgcard : ((Finset.range (columnsFor w core.fontSize).toNat).image some).card =
        (columnsFor w core.fontSize).toNat := by
      rw [Finset.card_image_of_injective _ (Option.some_injective ℕ), Finset.card_range]
    have hjimg : some j ∈ (Finset.range (columnsFor w core.fontSize).toNat).image some :=
      Finset.mem_image.mpr ⟨j, Finset.mem_range.mpr hj, rfl⟩
    have hcard2 := Finset.card_erase_of_mem hjimg
    have hle := Finset.card_le_card hsub
    omega

/-- C3 (witness): the spec at `initDrops(1000)` with the default 24-pixel
cell and 100 percent density, where `columns = activeCount = 42`. -/
theorem C3_initDropsSpec_witness :
    (((initDrops {} 1000 ⟨fun _ => 1 / 2, 0⟩).1.drops).length =
      (actualColumnsFor (columnsFor 1000 24) 100).toNat ∧
    ((((initDrops {} 1000 ⟨fun _ => 1 / 2, 0⟩).1.drops).map Drop.xIndex)).Nodup ∧
    (∀ d ∈ (initDrops {} 1000 ⟨fun _ => 1 / 2, 0⟩).1.drops,
      ∃ i, d.xIndex = some i ∧ i < (columnsFor 1000 24).toNat) ∧
    (((initDrops {} 1000 ⟨fun _ => 1 / 2, 0⟩).1.drops).length = (columnsFor 1000 24).toNat →
      ∀ j < (columnsFor 1000 24).toNat,
        some j ∈ ((initDrops {} 1000 ⟨fun _ => 1 / 2, 0⟩).1.drops).map Drop.xIndex)) ∧
    (columnsFor 1000 24).toNat = 42 ∧
    (actualColumnsFor (columnsFor 1000 24) 100).toNat = 42 := by
  have hceil : columnsFor 1000 24 = 42 := by
    rw [columnsFor, Int.ceil_eq_iff]
    norm_num
  have hfloor : ⌊((42 : ℤ) : ℚ) * ((100 : ℚ) / 100)⌋ = 42 := by
    norm_num
  refine ⟨C3_initDropsSpec {} 1000 (fun _ => 1 / 2) 0 (fun _ => ⟨by norm_num, by norm_num⟩)
      (by norm_num) (by norm_num) (by norm_num) (by norm_num), ?_, ?_⟩
  · rw [hceil]
    rfl
  · rw [actualColumnsFor, hceil, hfloor]
    rfl

/-- Once the pool is exhausted, every further selection-loop draw returns
`none` (`splice` on an empty array yields `undefined`). -/
theorem selectIndices_getD_none (g : ℕ → ℚ) (hg : RngOk g) :
    ∀ (n : ℕ) (pool : List ℕ) (k : ℕ) (i : ℕ), i < n → pool.length ≤ i →
      ((selectIndices pool n ⟨g, k⟩).1).getD i (some 0) = none := by
  intro n
  induction n with
  | zero => intro pool k i hi _; omega
  | succ m ih =>
    intro pool k i hi hpl
    cases i with
    | zero =>
      have hpool : pool = [] := List.eq_nil_of_length_eq_zero (by omega)
      subst hpool
      simp [selectIndices]
    | succ i =>
      simp only [selectIndices, Rng.next, List.getD_cons_succ]
      refine ih _ (k + 1) i (by omega) ?_
      rcases Nat.eq_zero_or_pos pool.length with hz | hpos
      · have hpool : pool = [] := List.eq_nil_of_length_eq_zero hz
        subst hpool
        simp
      · have hidx := floor_mul_lt hpos (hg k).1 (hg k).2
        have := List.length_eraseIdx_add_one hidx
        omega

/-- C9 (counterexample): for `densityPercent = 101 > 100` with a 24-pixel
cell on a 24-pixel surface, `columns = 1` and
`activeCount = max(1, floor(1 * 101/100)) = 1`, which is NOT greater than
`columns`; the selection pool is never exhausted and the single drop's
`columnIndex` is defined — refuting "for every densityPercent > 100,
activeCount > columns and drops beyond the first columns ones get undefined
indices". -/
theorem C9_counterexample :
    actualColumnsFor (columnsFor 24 24) 101 = columnsFor 24 24 ∧
    ¬ columnsFor 24 24 < actualColumnsFor (columnsFor 24 24) 101 ∧
    ((initDrops { density := 101 } 24 ⟨fun _ => 1 / 2, 0⟩).1.drops).map Drop.xIndex =
      [some 0] := by
  have hcol : columnsFor 24 24 = 1 := by
    rw [columnsFor]
    norm_num
  have hact : actualColumnsFor 1 101 = 1 := by
    rw [actualColumnsFor]
    norm_num
  have hmap : ((initDrops { density := 101 } 24 ⟨fun _ => 1 / 2, 0⟩).1.drops).map Drop.xIndex =
      (selectIndices (List.range (columnsFor 24 24).toNat)
        (actualColumnsFor (columnsFor 24 24) 101).toNat ⟨fun _ => 1 / 2, 0⟩).1 := by
    simp only [initDrops]
    rw [prefillDrops_xIndex, buildDrops_xIndex]
  refine ⟨by rw [hcol, hact], by rw [hcol, hact]; omega, ?_⟩
  rw [hmap, hcol, hact]
  norm_num [selectIndices, Rng.next]

/-- C9 (amended): `initDrops` performs no range validation or clamping of the
density: it always creates `activeCount = max(1, floor(columns *
density/100))` drop records, and whenever `activeCount` exceeds `columns`
(e.g. density ≥ 200; not for every density > 100) the without-replacement
pool is exhausted after `columns` draws and every drop at a position ≥
`columns` receives an undefined (`none`) `columnIndex`. -/
theorem C9_overDensity (core : MatrixRainCore) (w : ℚ) (g : ℕ → ℚ) (k : ℕ)
    (hg : RngOk g)
    (_hover : (columnsFor w core.fontSize).toNat <
      (actualColumnsFor (columnsFor w core.fontSize) core.density).toNat) :
    ((initDrops core w ⟨g, k⟩).1.drops).length =
      (actualColumnsFor (columnsFor w core.fontSize) core.density).toNat ∧
    ∀ i, (columnsFor w core.fontSize).toNat ≤ i →
      i < (actualColumnsFor (columnsFor w core.fontSize) core.density).toNat →
      (((initDrops core w ⟨g, k⟩).1.drops).map Drop.xIndex).getD i (some 0) = none := by
  have hmap : ((initDrops core w ⟨g, k⟩).1.drops).map Drop.xIndex =
      (selectIndices (List.range (columnsFor w core.fontSize).toNat)
        (actualColumnsFor (columnsFor w core.fontSize) core.density).toNat ⟨g, k⟩).1 := by
    simp only [initDrops]
    rw [prefillDrops_xIndex, buildDrops_xIndex]
  constructor
  · have := congrArg List.length hmap
    rwa [List.length_map, selectIndices_length] at this
  · intro i hi1 hi2
    rw [hmap]
    refine selectIndices_getD_none g hg _ _ k i hi2 ?_
    simpa using hi1

/-- C9 (witness): at density 200 on a one-column surface, two drop records
are created and the second one's `columnIndex` is `none`. -/
theorem C9_overDensity_witness :
    ((initDrops { density := 200 } 24 ⟨fun _ => 1 / 2, 0⟩).1.drops).length =
      (actualColumnsFor (columnsFor 24 24) 200).toNat ∧
    ∀ i, (columnsFor 24 24).toNat ≤ i →
      i < (actualColumnsFor (columnsFor 24 24) 200).toNat →
      (((initDrops { density := 200 } 24 ⟨fun _ => 1 / 2, 0⟩).1.drops).map Drop.xIndex).getD
        i (some 0) = none := by
  have hcol : columnsFor 24 24 = 1 := by
    rw [columnsFor]
    norm_num
  have hact : actualColumnsFor 1 200 = 2 := by
    rw [actualColumnsFor]
    norm_num
  exact C9_overDensity { density := 200 } 24 (fun _ => 1 / 2) 0
    (fun _ => ⟨by norm_num, by norm_num⟩) (by rw [hcol, hact]; norm_num)

/-- Particle 0 of a click burst radiates at angle 0, so its vertical velocity
component is `sin 0 * speed = 0`. -/
theorem clickParticle_vy_zero (x y : ℝ) (cs : CharsetKey) (g : ℕ → ℚ) (n : ℕ) :
    (clickParticle x y cs n 0 g).vy = 0 := by
  simp [clickParticle]

/-- For more than two particles, particle 1 radiates at angle `2π/n ∈ (0, π)`
with a speed of at least 2, so its vertical velocity component is positive. -/
theorem clickParticle_vy_pos (x y : ℝ) (cs : CharsetKey) (g : ℕ → ℚ) (hg : RngOk g)
    (n : ℕ) (hn : 2 < n) : 0 < (clickParticle x y cs n 1 g).vy := by
  have hnR : (2 : ℝ) < (n : ℝ) := by exact_mod_cast hn
  have hpi := Real.pi_pos
  have hangle : (0 : ℝ) < Real.pi * 2 * ((1 : ℕ) : ℝ) / (n : ℝ) := by
    push_cast
    positivity
  have hangle2 : Real.pi * 2 * ((1 : ℕ) : ℝ) / (n : ℝ) < Real.pi := by
    push_cast
    rw [div_lt_iff₀ (by linarith : (0 : ℝ) < (n : ℝ))]
    nlinarith
  have hsin := Real.sin_pos_of_pos_of_lt_pi hangle hangle2
  have hsq : (0 : ℚ) < g 2 * 5 + 2 := by linarith [(hg 2).1]
  have hs : (0 : ℝ) < ((g 2 * 5 + 2 : ℚ) : ℝ) := by exact_mod_cast hsq
  have := mul_pos hsin hs
  simpa [clickParticle] using this

/-- C8: `handleClick(x, y, 'bin')` dispatches exactly one explosion (burst)
effect at `(x, y)` with `remainingLife = maxLife = 1` and `radius = 10`,
carrying `particleCount` particles (10 on mobile, 20 otherwise); particle `i`
starts at the origin with `life = maxLife = 1`, a glyph from the 'bin'
charset (so in `{'0','1'}`), velocity `(cos(angle) * speed, sin(angle) *
speed)` for `angle = 2π i / particleCount` and a speed drawn in `[2, 7)`;
and the velocity vectors are not all identical (particles 0 and 1 differ). -/
theorem C8_handleClick (hnd : InteractionHandler) (x y : ℝ) (mobile : Bool)
    (g : ℕ → ℚ) (hg : RngOk g) :
    ((handleClick hnd x y .bin mobile g).2).length = 1 ∧
    ∀ e ∈ (handleClick hnd x y .bin mobile g).2,
      e.type = .explosion ∧ e.x = x ∧ e.y = y ∧ e.life = 1 ∧ e.maxLife = 1 ∧
      e.radius = 10 ∧
      e.particles.length = (if mobile then 10 else 20) ∧
      (∀ p ∈ e.particles,
        (p.char = '0' ∨ p.char = '1') ∧ p.x = x ∧ p.y = y ∧ p.life = 1 ∧ p.maxLife = 1) ∧
      (∀ i, ∀ hi : i < e.particles.length,
        (e.particles.get ⟨i, hi⟩).vx =
          Real.cos (Real.pi * 2 * (i : ℝ) / ((if mobile then 10 else 20 : ℕ) : ℝ)) *
            ((g (2 * i) * 5 + 2 : ℚ) : ℝ) ∧
        (e.particles.get ⟨i, hi⟩).vy =
          Real.sin (Real.pi * 2 * (i : ℝ) / ((if mobile then 10 else 20 : ℕ) : ℝ)) *
            ((g (2 * i) * 5 + 2 : ℚ) : ℝ) ∧
        (e.particles.get ⟨i, hi⟩).char = getRandomChar .bin (g (2 * i + 1)) ∧
        2 ≤ g (2 * i) * 5 + 2 ∧ g (2 * i) * 5 + 2 < 7) ∧
      (∃ p ∈ e.particles, ∃ q ∈ e.particles, (p.vx, p.vy) ≠ (q.vx, q.vy)) := by
  constructor
  · rfl
  · intro e he
    simp only [handleClick, List.mem_singleton] at he
    subst he
    refine ⟨rfl, rfl, rfl, rfl, rfl, rfl, by simp, ?_, ?_, ?_⟩
    · intro p hp
      simp only [List.mem_map, List.mem_range] at hp
      obtain ⟨i, _, rfl⟩ := hp
      exact ⟨getRandomChar_bin (hg (2 * i + 1)).1 (hg (2 * i + 1)).2, rfl, rfl, rfl, rfl⟩
    · intro i hi
      have hget : ((List.range (if mobile then 10 else 20 : ℕ)).map
          fun i => clickParticle x y .bin (if mobile then 10 else 20) i g).get ⟨i, hi⟩ =
          clickParticle x y .bin (if mobile then 10 else 20) i g := by
        simp
      rw [hget]
      refine ⟨rfl, rfl, rfl, ?_, ?_⟩
      · linarith [(hg (2 * i)).1]
      · linarith [(hg (2 * i)).2]
    · cases mobile
      · refine ⟨clickParticle x y .bin 20 0 g,
          List.mem_map_of_mem _ (List.mem_range.mpr (by norm_num)),
          clickParticle x y .bin 20 1 g,
          List.mem_map_of_mem _ (List.mem_range.mpr (by norm_num)), ?_⟩
        intro hc
        have h2 : (clickParticle x y .bin 20 0 g).vy =
            (clickParticle x y .bin 20 1 g).vy := congrArg Prod.snd hc
        rw [clickParticle_vy_zero] at h2
        exact ne_of_gt (clickParticle_vy_pos x y .bin g hg 20 (by norm_num)) h2.symm
      · refine ⟨clickParticle x y .bin 10 0 g,
          List.mem_map_of_mem _ (List.mem_range.mpr (by norm_num)),
          clickParticle x y .bin 10 1 g,
          List.mem_map_of_mem _ (List.mem_range.mpr (by norm_num)), ?_⟩
        intro hc
        have h2 : (clickParticle x y .bin 10 0 g).vy =
            (clickParticle x y .bin 10 1 g).vy := congrArg Prod.snd hc
        rw [clickParticle_vy_zero] at h2
        exact ne_of_gt (clickParticle_vy_pos x y .bin g hg 10 (by norm_num)) h2.symm

/-- C8 (witness): the theorem at a concrete click on a desktop surface. -/
theorem C8_handleClick_witness :
    ((handleClick {} 100 200 .bin false (fun _ => 1 / 2)).2).length = 1 ∧
    ∀ e ∈ (handleClick {} 100 200 .bin false (fun _ => 1 / 2)).2,
      e.type = .explosion ∧ e.x = 100 ∧ e.y = 200 ∧ e.life = 1 ∧ e.maxLife = 1 ∧
      e.radius = 10 ∧
      e.particles.length = 20 ∧
      (∀ p ∈ e.particles,
        (p.char = '0' ∨ p.char = '1') ∧ p.x = 100 ∧ p.y = 200 ∧ p.life = 1 ∧ p.maxLife = 1) ∧
      (∀ i, ∀ hi : i < e.particles.length,
        (e.particles.get ⟨i, hi⟩).vx =
          Real.cos (Real.pi * 2 * (i : ℝ) / ((20 : ℕ) : ℝ)) *
            (((fun _ => (1 : ℚ) / 2) (2 * i) * 5 + 2 : ℚ) : ℝ) ∧
        (e.particles.get ⟨i, hi⟩).vy =
          Real.sin (Real.pi * 2 * (i : ℝ) / ((20 : ℕ) : ℝ)) *
            (((fun _ => (1 : ℚ) / 2) (2 * i) * 5 + 2 : ℚ) : ℝ) ∧
        (e.particles.get ⟨i, hi⟩).char =
          getRandomChar .bin ((fun _ => (1 : ℚ) / 2) (2 * i + 1)) ∧
        2 ≤ ((fun _ => (1 : ℚ) / 2) (2 * i)) * 5 + 2 ∧
        ((fun _ => (1 : ℚ) / 2) (2 * i)) * 5 + 2 < 7) ∧
      (∃ p ∈ e.particles, ∃ q ∈ e.particles, (p.vx, p.vy) ≠ (q.vx, q.vy)) :=
  C8_handleClick {} 100 200 false (fun _ => 1 / 2) (fun _ => ⟨by norm_num, by norm_num⟩)

end MatrixRain
